import Mathlib

/-!
Verification development for the tech-support-assistant repository.

The definitions below are a shallow embedding of the Python sources:
`src/rag.py` (class `RAG`: `_chunk_text`, `_validate_file`, `ingest`,
`search`) and `src/agent.py` (class `Agent.message`).  Text is modelled as
`List Char`, Python floats as `ℚ`, fallible remote calls as explicitly
injected outcomes, and the external vector store as an association list.
-/

/-- Python whitespace characters recognised by `str.strip()` (the ASCII ones;
the documents and counterexamples here use only ASCII). -/
def isPySpace (c : Char) : Bool :=
  c = ' ' || c = '\t' || c = '\n' || c = '\r' || c = Char.ofNat 11 || c = Char.ofNat 12

/-- Truthiness of `chunk.strip()` in Python: the string has at least one
non-whitespace character. -/
def hasContent (s : List Char) : Bool :=
  s.any (fun c => !(isPySpace c))

/-- The `while start < text_length` loop of `RAG._chunk_text` (src/rag.py
lines 82-93).  `start` begins at 0 and strictly increases by
`size - overlap ≥ 1` on each iteration while `overlap < size`; when
`overlap ≥ size` the update `start += size - overlap` makes `start ≤ 0` from
the entry value 0, and the `if start <= 0: break` guard ends the loop after
the first window, which is the `else []` tail below.  The loop therefore runs
at most `text.length` times, which is the `fuel` argument. -/
def chunkGo (text : List Char) (size overlap : Nat) : Nat → Nat → List (List Char)
  | _, 0 => []
  | start, fuel + 1 =>
    if start < text.length then
      let chunk := (text.drop start).take size
      let tail :=
        if overlap < size then
          chunkGo text size overlap (start + (size - overlap)) fuel
        else []
      if hasContent chunk then chunk :: tail else tail
    else []

/-- `RAG._chunk_text` (src/rag.py lines 68-95): sliding windows
`text[start : start + size]`, keeping only windows with non-whitespace
content, and falling back to the whole text when no window was kept
(`return chunks if chunks else [text]`). -/
def chunk_text (size overlap : Nat) (text : List Char) : List (List Char) :=
  if (chunkGo text size overlap 0 text.length).isEmpty then [text]
  else chunkGo text size overlap 0 text.length

/-- The start offsets of every window the loop of `RAG._chunk_text` examines
(kept or dropped), mirroring `chunkGo`. -/
def windowGo (textLen size overlap : Nat) : Nat → Nat → List Nat
  | _, 0 => []
  | start, fuel + 1 =>
    if start < textLen then
      start ::
        (if overlap < size then
          windowGo textLen size overlap (start + (size - overlap)) fuel
        else [])
    else []

/-- All window start offsets examined when chunking `text`. -/
def windowStarts (size overlap : Nat) (text : List Char) : List Nat :=
  windowGo text.length size overlap 0 text.length

/-- The character spans `[start, stop)` of the chunks `RAG._chunk_text`
returns: the kept (non-whitespace) windows, or the whole text when the
fallback fires. -/
def chunkSpans (size overlap : Nat) (text : List Char) : List (Nat × Nat) :=
  let kept := (windowStarts size overlap text).filter
    (fun s => hasContent ((text.drop s).take size))
  if kept.isEmpty then [(0, text.length)] else kept.map (fun s => (s, s + size))

/-- Every claimed chunk span really is the span of a returned chunk: slicing
`text` at the spans of `chunkSpans` reproduces `chunk_text`. -/
theorem chunkGo_eq_filter_window (text : List Char) (size overlap : Nat) :
    ∀ fuel start,
      chunkGo text size overlap start fuel =
        ((windowGo text.length size overlap start fuel).map
          (fun s => (text.drop s).take size)).filter hasContent := by
  intro fuel
  induction fuel with
  | zero => intro start; simp [chunkGo, windowGo]
  | succ n ih =>
    intro start
    by_cases h : start < text.length
    · by_cases ho : overlap < size
      · simp only [chunkGo, windowGo, if_pos h, if_pos ho, List.map_cons, List.filter_cons,
          ih]
      · simp only [chunkGo, windowGo, if_pos h, if_neg ho, List.map_cons, List.map_nil,
          List.filter_cons]
        by_cases hc : hasContent ((text.drop start).take size) <;> simp [hc]
    · simp [chunkGo, windowGo, if_neg h]

theorem chunk_text_eq_spans (size overlap : Nat) (text : List Char) :
    chunk_text size overlap text =
      (chunkSpans size overlap text).map (fun p => (text.drop p.1).take (p.2 - p.1)) := by
  unfold chunk_text chunkSpans
  rw [chunkGo_eq_filter_window, ← windowStarts, List.filter_map]
  have hcomp : (hasContent ∘ fun s => (text.drop s).take size)
      = (fun s => hasContent ((text.drop s).take size)) := rfl
  rw [hcomp]
  cases hK : (windowStarts size overlap text).filter
      (fun s => hasContent ((text.drop s).take size)) with
  | nil => simp [List.take_length]
  | cons a l =>
    rw [if_neg (by simp), if_neg (by simp), List.map_map]
    apply List.map_congr_left
    intro s _
    simp

/-- The loop never runs once `start` has passed the end of the text. -/
theorem chunkGo_of_le (text : List Char) (size overlap : Nat) :
    ∀ fuel start, text.length ≤ start → chunkGo text size overlap start fuel = [] := by
  intro fuel start h
  cases fuel with
  | zero => simp [chunkGo]
  | succ n => simp [chunkGo, Nat.not_lt.mpr h]

/-- Windows examined from `start` onward cover every offset in
`[start, textLen)`, as long as the fuel bound is sufficient and the step
`size - overlap` is positive. -/
theorem windowGo_cover (textLen size overlap : Nat) (ho : overlap < size) :
    ∀ fuel start i, start ≤ i → i < textLen → textLen ≤ start + fuel →
      ∃ s ∈ windowGo textLen size overlap start fuel, s ≤ i ∧ i < s + size := by
  intro fuel
  induction fuel with
  | zero => intro start i h1 h2 h3; omega
  | succ n ih =>
    intro start i h1 h2 h3
    have hlt : start < textLen := Nat.lt_of_le_of_lt h1 h2
    rw [windowGo, if_pos hlt, if_pos ho]
    by_cases hi : i < start + size
    · exact ⟨start, List.mem_cons_self _ _, h1, hi⟩
    · have hstep : start + (size - overlap) ≤ i := by omega
      obtain ⟨s, hs, hs1, hs2⟩ :=
        ih (start + (size - overlap)) i hstep h2 (by omega)
      exact ⟨s, List.mem_cons_of_mem _ hs, hs1, hs2⟩

/-- The coverage property exactly as the claim states it: the spans of the
returned chunks jointly cover every character offset of the text. -/
def chunkSpansCover (size overlap : Nat) (text : List Char) : Prop :=
  ∀ i, i < text.length → ∃ p ∈ chunkSpans size overlap text, p.1 ≤ i ∧ i < p.2

/-- C7 fails as stated: with the valid configuration `size = 1`,
`overlap = 0` and the text `"a "`, the trailing window `" "` is
whitespace-only, so `_chunk_text` drops it and the returned chunks are
`["a"]`, whose single span `[0, 1)` does not cover offset 1. -/
theorem c7_counterexample :
    (0 < 1 ∧ 0 < 1) ∧ ¬ chunkSpansCover 1 0 ['a', ' '] := by
  constructor
  · exact ⟨Nat.one_pos, Nat.one_pos⟩
  · unfold chunkSpansCover
    decide

/-- C7 amended: for every text and valid configuration, the spans of all
windows examined by the scan cover every offset in `[0, len)`; the spans of
the returned chunks cover every offset provided no examined window is
whitespace-only (a whitespace-only window is dropped, and an offset lying
only in dropped windows is left uncovered). -/
theorem c7_amended (size overlap : Nat) (text : List Char)
    (_hs : 0 < size) (ho : overlap < size) :
    (∀ i, i < text.length →
      ∃ s ∈ windowStarts size overlap text, s ≤ i ∧ i < s + size) ∧
    ((∀ s ∈ windowStarts size overlap text, hasContent ((text.drop s).take size) = true) →
      chunkSpansCover size overlap text) := by
  constructor
  · intro i hi
    exact windowGo_cover text.length size overlap ho text.length 0 i (Nat.zero_le i) hi
      (by omega)
  · intro hall
    unfold chunkSpansCover chunkSpans
    intro i hi
    obtain ⟨s, hsmem, hs1, hs2⟩ :=
      windowGo_cover text.length size overlap ho text.length 0 i (Nat.zero_le i) hi (by omega)
    have hkept : (windowStarts size overlap text).filter
        (fun s => hasContent ((text.drop s).take size)) =
        windowStarts size overlap text := by
      apply List.filter_eq_self.mpr
      intro a ha
      simpa using hall a ha
    rw [hkept]
    have hsmem' : s ∈ windowStarts size overlap text := hsmem
    have hne : ¬ ((windowStarts size overlap text).isEmpty = true) := by
      intro hcontra
      rw [List.isEmpty_iff] at hcontra
      rw [hcontra] at hsmem'
      simp at hsmem'
    rw [if_neg hne]
    exact ⟨(s, s + size), List.mem_map_of_mem _ hsmem', hs1, hs2⟩

/-- Witness for `c7_amended` at the concrete input `size = 1`, `overlap = 0`,
text `"a"`. -/
theorem c7_amended_witness :
    (0 < 1 ∧ 0 < 1) ∧
    ((∀ i, i < (['a'] : List Char).length →
        ∃ s ∈ windowStarts 1 0 ['a'], s ≤ i ∧ i < s + 1) ∧
      ((∀ s ∈ windowStarts 1 0 ['a'],
          hasContent (((['a'] : List Char).drop s).take 1) = true) →
        chunkSpansCover 1 0 ['a'])) :=
  ⟨⟨Nat.one_pos, Nat.one_pos⟩, c7_amended 1 0 ['a'] Nat.one_pos Nat.one_pos⟩

/-- C8 fails as stated: with the valid configuration `size = 10`,
`overlap = 8` and the 5-character text `"hello"` (so `len ≤ size`), the
window start still advances by only `size - overlap = 2 < len`, and
`_chunk_text` returns three chunks `["hello", "llo", "o"]`, not one. -/
theorem c8_counterexample :
    (0 < 10 ∧ 8 < 10 ∧ ("hello".data).length ≤ 10) ∧
      chunk_text 10 8 "hello".data ≠ ["hello".data] := by
  constructor
  · refine ⟨by omega, by omega, by decide⟩
  · decide

/-- C8 amended: one chunk equal to the whole text is returned exactly when
the text is no longer than the window step `size - overlap` (not merely no
longer than `size`); this includes whitespace-only text via the
`return chunks if chunks else [text]` fallback. -/
theorem c8_amended (size overlap : Nat) (text : List Char)
    (ho : overlap < size) (hlen : text.length ≤ size - overlap) :
    chunk_text size overlap text = [text] := by
  unfold chunk_text
  cases htext : text.length with
  | zero => simp [chunkGo]
  | succ k =>
    have hpos : 0 < text.length := by omega
    have htake : (text.drop 0).take size = text := by
      rw [List.drop_zero]
      exact List.take_of_length_le (by omega)
    have htail : chunkGo text size overlap (0 + (size - overlap)) k = [] :=
      chunkGo_of_le text size overlap k _ (by omega)
    have hgo : chunkGo text size overlap 0 (k + 1)
        = if hasContent text then [text] else [] := by
      simp only [chunkGo, if_pos hpos, if_pos ho, htake, htail]
    rw [hgo]
    by_cases hc : hasContent text <;> simp [hc]

/-- Witness for `c8_amended` at `size = 3`, `overlap = 1`, text `"hi"`. -/
theorem c8_amended_witness :
    (1 < 3 ∧ ("hi".data).length ≤ 3 - 1) ∧
      chunk_text 3 1 "hi".data = ["hi".data] :=
  ⟨⟨by omega, by decide⟩, c8_amended 3 1 "hi".data (by omega) (by decide)⟩

/-- C9 fails as stated: with `size = 1`, `overlap = 1` (so
`size - overlap = 0`) and the text `"ab"`, `_chunk_text` neither raises nor
behaves like the clamped configuration `overlap = size - 1 = 0`: the clamped
run returns `["a", "b"]`, but the code returns only `["a"]`, because the
`if start <= 0: break` guard stops the loop after the first window. -/
theorem c9_counterexample :
    chunk_text 1 1 "ab".data = ["a".data] ∧
      chunk_text 1 (1 - 1) "ab".data = ["a".data, "b".data] ∧
      chunk_text 1 1 "ab".data ≠ chunk_text 1 (1 - 1) "ab".data := by
  refine ⟨by decide, by decide, by decide⟩

/-- C9 amended: when `size - overlap ≤ 0` the code neither rejects the
configuration nor clamps the overlap; the post-update guard
`if start <= 0: break` ends the loop after the first window, so chunking
returns the first window when it has content (and the whole-text fallback
otherwise) and terminates for every input text. -/
theorem c9_amended (size overlap : Nat) (text : List Char) (h : size ≤ overlap) :
    chunk_text size overlap text =
      if 0 < text.length ∧ hasContent (text.take size) = true
      then [text.take size] else [text] := by
  unfold chunk_text
  cases htext : text.length with
  | zero =>
    have hnil : text = [] := List.length_eq_zero.mp htext
    subst hnil
    simp [chunkGo]
  | succ k =>
    have hpos : 0 < text.length := by omega
    have hgo : chunkGo text size overlap 0 (k + 1)
        = if hasContent (text.take size) then [text.take size] else [] := by
      simp only [chunkGo, if_pos hpos, if_neg (by omega : ¬ overlap < size),
        List.drop_zero]
    rw [hgo]
    by_cases hc : hasContent (text.take size) <;> simp [hc, hpos]

/-- Witness for `c9_amended` at `size = 1`, `overlap = 1`, text `"ab"`. -/
theorem c9_amended_witness :
    1 ≤ 1 ∧
      chunk_text 1 1 "ab".data =
        (if 0 < ("ab".data).length ∧ hasContent (("ab".data).take 1) = true
         then [("ab".data).take 1] else ["ab".data]) :=
  ⟨le_refl 1, c9_amended 1 1 "ab".data (le_refl 1)⟩

/-! ## Ingestion (src/rag.py, `RAG.ingest` and helpers) -/

/-- Configuration of the `RAG` object as used by `ingest` and `search`:
collection name (or `None`), reachability of the external ChromaDB service,
the chunking parameters from the environment, and the (deterministic)
embedding function computed by the sentence-transformer model on a chunk. -/
structure IngestConfig where
  collectionName : Option String
  collectionOk : Bool
  chunkSize : Nat
  chunkOverlap : Nat
  embedFn : List Char → List ℚ

/-- One entry produced by `path.rglob("*")`: its path relative to the folder
(`relative_path`), its basename (`.name`), its extension (`.suffix`), whether
it is a regular file, its content, and the injected outcome of each fallible
per-file stage (`none` means the stage succeeds; `some m` means the stage
raises an exception whose `str` is `m`). -/
structure FileEntry where
  relPath : String
  name : String
  suffix : String
  isFile : Bool
  content : List Char
  readErr : Option String
  embedErr : Option String
  storeErr : Option String
deriving DecidableEq

/-- The folder handed to `ingest`: its path string, whether `path.exists()`
and `path.is_dir()` hold, and the `rglob` listing. -/
structure Folder where
  path : String
  present : Bool
  isDir : Bool
  entries : List FileEntry
deriving DecidableEq

def SUPPORTED_EXTENSIONS : List String := [".txt", ".md"]

/-- `str.lower()` on an ASCII extension. -/
def lowerStr (s : String) : String := String.mk (s.data.map Char.toLower)

/-- `RAG._validate_file` (src/rag.py lines 97-113): `(is_valid, error)`.
The path interpolated into the first message is modelled by the relative
path. -/
def validate_file (f : FileEntry) : Bool × Option String :=
  if !f.isFile then (false, some ("Not a file: " ++ f.relPath))
  else if !(SUPPORTED_EXTENSIONS.contains (lowerStr f.suffix)) then
    (false, some ("Unsupported file type: " ++ f.suffix ++
      ". Only .txt and .md files are supported."))
  else (true, none)

/-- A record held by the vector store: embedding, document text and the
metadata dictionary written at src/rag.py lines 331-339. -/
structure IndexedRecord where
  embedding : List ℚ
  document : List Char
  filename : String
  filepath : String
  chunk_index : Nat
  total_chunks : Nat
deriving DecidableEq

/-- The collection's contents: id-keyed records, in insertion order. -/
abbrev Store := List (String × IndexedRecord)

def storeKeys (st : Store) : List String := st.map Prod.fst

def storeHasId (st : Store) (id : String) : Bool := st.any (fun p => p.1 == id)

/-- Modelled from the spec: the write operation of the external vector store
(the ChromaDB collection is an external service, not code of this
repository).  Spec section 4.3 gives the store contract used by ingestion:
an id already present is overwritten in place (no duplication), a new id is
appended. -/
def storeUpsertOne (st : Store) (a : String × IndexedRecord) : Store :=
  if storeHasId st a.1 then st.map (fun p => if p.1 == a.1 then a else p)
  else st ++ [a]

/-- A whole batch write (`collection.add(ids=..., embeddings=...,
documents=..., metadatas=...)`), record by record. -/
def storeUpsert (st : Store) (l : List (String × IndexedRecord)) : Store :=
  l.foldl storeUpsertOne st

/-- One invocation of the progress callback:
`(current, total, filename, status)`. -/
structure Event where
  current : Nat
  total : Nat
  filename : String
  status : String
deriving DecidableEq

/-- The chunks of one file (`RAG._chunk_text(content)` with the configured
size and overlap). -/
def fileChunks (cfg : IngestConfig) (f : FileEntry) : List (List Char) :=
  chunk_text cfg.chunkSize cfg.chunkOverlap f.content

/-- The zipped `ids`/`embeddings`/`documents`/`metadatas` batch passed to the
store for one file: element `j` is
`(f"{relative_path}_{j}", record j)` (src/rag.py lines 328-347). -/
def filePayloadGo (cfg : IngestConfig) (f : FileEntry) (total_chunks : Nat) :
    Nat → List (List Char) → List (String × IndexedRecord)
  | _, [] => []
  | j, c :: cs =>
    (f.relPath ++ "_" ++ toString j,
      { embedding := cfg.embedFn c, document := c, filename := f.name,
        filepath := f.relPath, chunk_index := j, total_chunks := total_chunks }) ::
      filePayloadGo cfg f total_chunks (j + 1) cs

def filePayload (cfg : IngestConfig) (f : FileEntry) : List (String × IndexedRecord) :=
  filePayloadGo cfg f (fileChunks cfg f).length 0 (fileChunks cfg f)

/-- The chunk ids one file contributes. -/
def fileIds (cfg : IngestConfig) (f : FileEntry) : List String :=
  (filePayload cfg f).map Prod.fst

/-- Whether every fallible stage of a file succeeds. -/
def fileOk (f : FileEntry) : Bool :=
  f.readErr.isNone && f.embedErr.isNone && f.storeErr.isNone

/-- The message of the first failing stage of a file, if any (the exception
caught by the per-file `try`/`except`). -/
def fileFailMsg (f : FileEntry) : Option String :=
  match f.readErr with
  | some m => some m
  | none =>
    match f.embedErr with
    | some m => some m
    | none => f.storeErr

/-- One iteration of the per-file loop of `RAG.ingest` (src/rag.py lines
304-359): the progress events it emits, the store afterwards, and the number
of chunks it added to `total_chunks` (0 when the iteration ended in the
`except` branch). -/
def processFile (cfg : IngestConfig) (total i : Nat) (f : FileEntry) (st : Store) :
    List Event × Store × Nat :=
  match f.readErr with
  | some e => ([⟨i, total, f.name, "Reading..."⟩, ⟨i, total, f.name, "ERROR: " ++ e⟩], st, 0)
  | none =>
    match f.embedErr with
    | some e =>
      ([⟨i, total, f.name, "Reading..."⟩, ⟨i, total, f.name, "Chunking..."⟩,
        ⟨i, total, f.name,
          "Embedding " ++ toString (fileChunks cfg f).length ++ " chunks..."⟩,
        ⟨i, total, f.name, "ERROR: " ++ e⟩], st, 0)
    | none =>
      match f.storeErr with
      | some e =>
        ([⟨i, total, f.name, "Reading..."⟩, ⟨i, total, f.name, "Chunking..."⟩,
          ⟨i, total, f.name,
            "Embedding " ++ toString (fileChunks cfg f).length ++ " chunks..."⟩,
          ⟨i, total, f.name, "Saving to ChromaDB..."⟩,
          ⟨i, total, f.name, "ERROR: " ++ e⟩], st, 0)
      | none =>
        ([⟨i, total, f.name, "Reading..."⟩, ⟨i, total, f.name, "Chunking..."⟩,
          ⟨i, total, f.name,
            "Embedding " ++ toString (fileChunks cfg f).length ++ " chunks..."⟩,
          ⟨i, total, f.name, "Saving to ChromaDB..."⟩,
          ⟨i, total, f.name,
            "✓ Done (" ++ toString (fileChunks cfg f).length ++ " chunks)"⟩],
         storeUpsert st (filePayload cfg f), (fileChunks cfg f).length)

/-- The `for i, file_path in enumerate(text_files, 1)` loop: events of all
files in order, the final store, and the accumulated `total_chunks`. -/
def processFiles (cfg : IngestConfig) (total : Nat) :
    Nat → List FileEntry → Store → List Event × Store × Nat
  | _, [], st => ([], st, 0)
  | i, f :: rest, st =>
    ((processFile cfg total i f st).1 ++
      (processFiles cfg total (i + 1) rest (processFile cfg total i f st).2.1).1,
     (processFiles cfg total (i + 1) rest (processFile cfg total i f st).2.1).2.1,
     (processFile cfg total i f st).2.2 +
      (processFiles cfg total (i + 1) rest (processFile cfg total i f st).2.1).2.2)

/-- The `ValueError`s `ingest` can raise, tagged by the spec's error
taxonomy: `invalidInput` for the two folder checks, `collectionError` for
`_get_collection` failures, `noSupportedFiles` for an empty supported-file
list. -/
inductive IngestError where
  | invalidInput : String → IngestError
  | collectionError : String → IngestError
  | noSupportedFiles : String → IngestError
deriving DecidableEq

/-- `text_files`: entries passing `_validate_file`, in `rglob` order. -/
def textFilesOf (folder : Folder) : List FileEntry :=
  folder.entries.filter (fun f => (validate_file f).1)

/-- `rejected_files`: entries failing validation that are regular files
(the `elif error and file_path.is_file()` branch, src/rag.py line 288). -/
def rejectedOf (folder : Folder) : List FileEntry :=
  folder.entries.filter (fun f => !(validate_file f).1 && f.isFile)

/-- The `REJECTED:` progress reports (src/rag.py lines 292-295): one per
rejected file, always with `current = 0`. -/
def rejectedEvents (folder : Folder) : List Event :=
  (rejectedOf folder).map (fun f =>
    ⟨0, (textFilesOf folder).length, f.name,
      "REJECTED: " ++ ((validate_file f).2.getD "")⟩)

/-- `RAG.ingest` (src/rag.py lines 259-362).  The result is the list of
progress-callback invocations (side effects that happen even when the
function then raises) together with either the raised error or the final
store, the accumulated `total_chunks`, and the Python return value.  The
function body has no `return` statement, so its value is `None`, modelled by
the constant `none` in the success case. -/
def ingest (cfg : IngestConfig) (folder : Folder) (st0 : Store) :
    List Event × Except IngestError (Store × Nat × Option Nat) :=
  if !folder.present then
    ([], .error (.invalidInput ("Folder does not exist: " ++ folder.path)))
  else if !folder.isDir then
    ([], .error (.invalidInput ("Path is not a directory: " ++ folder.path)))
  else if cfg.collectionName.isNone then
    ([], .error (.collectionError "Collection name must be set before accessing collection"))
  else if !cfg.collectionOk then
    ([], .error (.collectionError "Could not connect to ChromaDB"))
  else if (textFilesOf folder).isEmpty then
    (rejectedEvents folder,
     .error (.noSupportedFiles ("No supported files (.txt, .md) found in " ++ folder.path)))
  else
    (rejectedEvents folder ++
      (processFiles cfg (textFilesOf folder).length 1 (textFilesOf folder) st0).1 ++
      [⟨(textFilesOf folder).length, (textFilesOf folder).length, "",
        "Completed! " ++
          toString (processFiles cfg (textFilesOf folder).length 1 (textFilesOf folder) st0).2.2 ++
          " total chunks ingested."⟩],
     .ok ((processFiles cfg (textFilesOf folder).length 1 (textFilesOf folder) st0).2.1,
          (processFiles cfg (textFilesOf folder).length 1 (textFilesOf folder) st0).2.2,
          none))

/-- The store after a successful run of the per-file loop. -/
def ingestStoreF (cfg : IngestConfig) (folder : Folder) (st0 : Store) : Store :=
  (processFiles cfg (textFilesOf folder).length 1 (textFilesOf folder) st0).2.1

/-- The total chunk count the spec describes: the sum of the chunk counts of
the successfully processed files. -/
def specTotalChunks (cfg : IngestConfig) (files : List FileEntry) : Nat :=
  (files.map (fun f => if fileOk f then (fileChunks cfg f).length else 0)).sum

/-- All chunk ids a run of the per-file loop writes to the store. -/
def ingestWrittenIds (cfg : IngestConfig) (files : List FileEntry) : List String :=
  files.flatMap (fun f => if fileOk f then fileIds cfg f else [])

/-- The preconditions under which `ingest` reaches the per-file loop:
existing directory, configured and reachable collection, at least one
supported file. -/
def ingestPre (cfg : IngestConfig) (folder : Folder) : Prop :=
  folder.present = true ∧ folder.isDir = true ∧
  cfg.collectionName.isNone = false ∧ cfg.collectionOk = true ∧
  (textFilesOf folder).isEmpty = false

/-! ## Store lemmas -/

theorem storeHasId_iff (st : Store) (id : String) :
    storeHasId st id = true ↔ id ∈ storeKeys st := by
  unfold storeHasId storeKeys
  rw [List.any_eq_true]
  constructor
  · rintro ⟨p, hp, hpe⟩
    have hpe' : p.1 = id := beq_iff_eq.mp hpe
    exact hpe' ▸ List.mem_map_of_mem Prod.fst hp
  · intro h
    obtain ⟨p, hp, hpe⟩ := List.mem_map.mp h
    exact ⟨p, hp, beq_iff_eq.mpr hpe⟩

theorem storeKeys_map_replace (st : Store) (a : String × IndexedRecord) :
    storeKeys (st.map (fun p => if p.1 == a.1 then a else p)) = storeKeys st := by
  unfold storeKeys
  rw [List.map_map]
  apply List.map_congr_left
  intro p _
  by_cases h : p.1 == a.1
  · have : p.1 = a.1 := beq_iff_eq.mp h
    simp [Function.comp, h, this]
  · simp [Function.comp, h]

theorem storeKeys_upsertOne (st : Store) (a : String × IndexedRecord) :
    storeKeys (storeUpsertOne st a)
      = if a.1 ∈ storeKeys st then storeKeys st else storeKeys st ++ [a.1] := by
  unfold storeUpsertOne
  by_cases h : a.1 ∈ storeKeys st
  · rw [if_pos ((storeHasId_iff st a.1).mpr h), if_pos h, storeKeys_map_replace]
  · rw [if_neg (fun hc => h ((storeHasId_iff st a.1).mp hc)), if_neg h]
    unfold storeKeys
    simp

theorem mem_storeKeys_upsertOne (st : Store) (a : String × IndexedRecord) (x : String) :
    x ∈ storeKeys (storeUpsertOne st a) ↔ x ∈ storeKeys st ∨ x = a.1 := by
  rw [storeKeys_upsertOne]
  by_cases h : a.1 ∈ storeKeys st
  · rw [if_pos h]
    constructor
    · exact Or.inl
    · rintro (hx | rfl)
      · exact hx
      · exact h
  · rw [if_neg h]
    simp

theorem nodup_storeKeys_upsertOne (st : Store) (a : String × IndexedRecord)
    (h : (storeKeys st).Nodup) : (storeKeys (storeUpsertOne st a)).Nodup := by
  rw [storeKeys_upsertOne]
  by_cases hm : a.1 ∈ storeKeys st
  · rw [if_pos hm]
    exact h
  · rw [if_neg hm]
    simp [List.nodup_append, h, hm]

theorem storeUpsert_cons (st : Store) (a : String × IndexedRecord)
    (t : List (String × IndexedRecord)) :
    storeUpsert st (a :: t) = storeUpsert (storeUpsertOne st a) t := rfl

theorem mem_storeKeys_upsert (l : List (String × IndexedRecord)) :
    ∀ st x, x ∈ storeKeys (storeUpsert st l) ↔ x ∈ storeKeys st ∨ x ∈ l.map Prod.fst := by
  induction l with
  | nil => intro st x; simp [storeUpsert]
  | cons a t ih =>
    intro st x
    rw [storeUpsert_cons, ih, mem_storeKeys_upsertOne]
    simp [or_assoc]

theorem storeKeys_upsert_of_subset (l : List (String × IndexedRecord)) :
    ∀ st, (∀ x ∈ l.map Prod.fst, x ∈ storeKeys st) →
      storeKeys (storeUpsert st l) = storeKeys st := by
  induction l with
  | nil => intro st _; rfl
  | cons a t ih =>
    intro st h
    have ha : a.1 ∈ storeKeys st := h a.1 (by simp)
    have hsub : ∀ x ∈ t.map Prod.fst, x ∈ storeKeys (storeUpsertOne st a) := by
      intro x hx
      rw [mem_storeKeys_upsertOne]
      exact Or.inl (h x (by simp [hx]))
    rw [storeUpsert_cons, ih _ hsub, storeKeys_upsertOne, if_pos ha]

theorem nodup_storeKeys_upsert (l : List (String × IndexedRecord)) :
    ∀ st, (storeKeys st).Nodup → (storeKeys (storeUpsert st l)).Nodup := by
  induction l with
  | nil => intro st h; exact h
  | cons a t ih =>
    intro st h
    rw [storeUpsert_cons]
    exact ih _ (nodup_storeKeys_upsertOne st a h)

/-! ## Per-file and per-run lemmas -/

/-- The store effect of one file: the payload upsert on success, nothing on
failure. -/
theorem processFile_store (cfg : IngestConfig) (total i : Nat) (f : FileEntry) (st : Store) :
    (processFile cfg total i f st).2.1
      = if fileOk f then storeUpsert st (filePayload cfg f) else st := by
  cases hr : f.readErr with
  | some e => simp [processFile, fileOk, hr]
  | none =>
    cases he : f.embedErr with
    | some e => simp [processFile, fileOk, hr, he]
    | none =>
      cases hw : f.storeErr with
      | some e => simp [processFile, fileOk, hr, he, hw]
      | none => simp [processFile, fileOk, hr, he, hw]

/-- The chunk-count effect of one file. -/
theorem processFile_total (cfg : IngestConfig) (total i : Nat) (f : FileEntry) (st : Store) :
    (processFile cfg total i f st).2.2
      = if fileOk f then (fileChunks cfg f).length else 0 := by
  cases hr : f.readErr with
  | some e => simp [processFile, fileOk, hr]
  | none =>
    cases he : f.embedErr with
    | some e => simp [processFile, fileOk, hr, he]
    | none =>
      cases hw : f.storeErr with
      | some e => simp [processFile, fileOk, hr, he, hw]
      | none => simp [processFile, fileOk, hr, he, hw]

/-- The events of one file do not depend on the store state. -/
theorem processFile_events_indep (cfg : IngestConfig) (total i : Nat) (f : FileEntry)
    (st st' : Store) : (processFile cfg total i f st).1 = (processFile cfg total i f st').1 := by
  cases hr : f.readErr with
  | some e => simp [processFile, hr]
  | none =>
    cases he : f.embedErr with
    | some e => simp [processFile, hr, he]
    | none =>
      cases hw : f.storeErr with
      | some e => simp [processFile, hr, he, hw]
      | none => simp [processFile, hr, he, hw]

/-- A failing file is reported with an `ERROR:` status carrying the message
of the first failing stage. -/
theorem processFile_error_event (cfg : IngestConfig) (total i : Nat) (f : FileEntry)
    (st : Store) (m : String) (hm : fileFailMsg f = some m) :
    Event.mk i total f.name ("ERROR: " ++ m) ∈ (processFile cfg total i f st).1 := by
  cases hr : f.readErr with
  | some e =>
    have : e = m := by simpa [fileFailMsg, hr] using hm
    subst this
    simp [processFile, hr]
  | none =>
    cases he : f.embedErr with
    | some e =>
      have : e = m := by simpa [fileFailMsg, hr, he] using hm
      subst this
      simp [processFile, hr, he]
    | none =>
      cases hw : f.storeErr with
      | some e =>
        have : e = m := by simpa [fileFailMsg, hr, he, hw] using hm
        subst this
        simp [processFile, hr, he, hw]
      | none => simp [fileFailMsg, hr, he, hw] at hm

/-- A fully successful file is reported `Done` with its chunk count. -/
theorem processFile_done_event (cfg : IngestConfig) (total i : Nat) (f : FileEntry)
    (st : Store) (hok : fileOk f = true) :
    Event.mk i total f.name ("✓ Done (" ++ toString (fileChunks cfg f).length ++ " chunks)")
      ∈ (processFile cfg total i f st).1 := by
  have hr : f.readErr = none := by
    cases hr : f.readErr <;> simp [fileOk, hr] at hok ⊢
  have he : f.embedErr = none := by
    cases he : f.embedErr <;> simp [fileOk, he] at hok ⊢
  have hw : f.storeErr = none := by
    cases hw : f.storeErr <;> simp [fileOk, hw] at hok ⊢
  simp [processFile, hr, he, hw]

/-- The events of one file, as a function of the file alone. -/
def fileEvents (cfg : IngestConfig) (total i : Nat) (f : FileEntry) : List Event :=
  (processFile cfg total i f []).1

theorem processFile_events (cfg : IngestConfig) (total i : Nat) (f : FileEntry) (st : Store) :
    (processFile cfg total i f st).1 = fileEvents cfg total i f :=
  processFile_events_indep cfg total i f st []

theorem processFiles_cons_store (cfg : IngestConfig) (total i : Nat) (f : FileEntry)
    (rest : List FileEntry) (st : Store) :
    (processFiles cfg total i (f :: rest) st).2.1
      = (processFiles cfg total (i + 1) rest (processFile cfg total i f st).2.1).2.1 := rfl

theorem processFiles_cons_events (cfg : IngestConfig) (total i : Nat) (f : FileEntry)
    (rest : List FileEntry) (st : Store) :
    (processFiles cfg total i (f :: rest) st).1
      = (processFile cfg total i f st).1 ++
        (processFiles cfg total (i + 1) rest (processFile cfg total i f st).2.1).1 := rfl

theorem processFiles_cons_total (cfg : IngestConfig) (total i : Nat) (f : FileEntry)
    (rest : List FileEntry) (st : Store) :
    (processFiles cfg total i (f :: rest) st).2.2
      = (processFile cfg total i f st).2.2 +
        (processFiles cfg total (i + 1) rest (processFile cfg total i f st).2.1).2.2 := rfl

/-- An id is in the store after the loop iff it was there before or some
successful file wrote it. -/
theorem mem_storeKeys_processFiles (cfg : IngestConfig) (total : Nat)
    (files : List FileEntry) :
    ∀ i st x, x ∈ storeKeys (processFiles cfg total i files st).2.1 ↔
      x ∈ storeKeys st ∨ x ∈ ingestWrittenIds cfg files := by
  induction files with
  | nil => intro i st x; simp [processFiles, ingestWrittenIds]
  | cons f rest ih =>
    intro i st x
    rw [processFiles_cons_store, ih, processFile_store]
    by_cases hok : fileOk f
    · rw [if_pos hok, mem_storeKeys_upsert]
      unfold ingestWrittenIds fileIds
      simp [hok, List.mem_append, or_assoc]
    · rw [if_neg hok]
      unfold ingestWrittenIds
      simp [hok]

/-- Re-running the loop when every id it writes is already present leaves
the set and order of stored ids unchanged (every write is an in-place
overwrite). -/
theorem storeKeys_processFiles_of_subset (cfg : IngestConfig) (total : Nat)
    (files : List FileEntry) :
    ∀ i st, (∀ x ∈ ingestWrittenIds cfg files, x ∈ storeKeys st) →
      storeKeys (processFiles cfg total i files st).2.1 = storeKeys st := by
  induction files with
  | nil => intro i st _; rfl
  | cons f rest ih =>
    intro i st h
    rw [processFiles_cons_store]
    have hf : storeKeys (processFile cfg total i f st).2.1 = storeKeys st := by
      rw [processFile_store]
      by_cases hok : fileOk f
      · rw [if_pos hok]
        apply storeKeys_upsert_of_subset
        intro x hx
        apply h
        unfold ingestWrittenIds
        rw [List.flatMap_cons]
        apply List.mem_append_left
        rw [if_pos hok]
        exact hx
      · rw [if_neg hok]
    have hrest : ∀ x ∈ ingestWrittenIds cfg rest,
        x ∈ storeKeys (processFile cfg total i f st).2.1 := by
      intro x hx
      rw [hf]
      apply h
      unfold ingestWrittenIds
      rw [List.flatMap_cons]
      exact List.mem_append_right _ hx
    rw [ih _ _ hrest, hf]

/-- The loop preserves distinctness of stored ids. -/
theorem nodup_storeKeys_processFiles (cfg : IngestConfig) (total : Nat)
    (files : List FileEntry) :
    ∀ i st, (storeKeys st).Nodup →
      (storeKeys (processFiles cfg total i files st).2.1).Nodup := by
  induction files with
  | nil => intro i st h; exact h
  | cons f rest ih =>
    intro i st h
    rw [processFiles_cons_store]
    apply ih
    rw [processFile_store]
    by_cases hok : fileOk f
    · rw [if_pos hok]
      exact nodup_storeKeys_upsert _ _ h
    · rw [if_neg hok]
      exact h

/-- The accumulated `total_chunks` is the sum of the chunk counts of the
successfully processed files. -/
theorem processFiles_total_eq (cfg : IngestConfig) (total : Nat)
    (files : List FileEntry) :
    ∀ i st, (processFiles cfg total i files st).2.2 = specTotalChunks cfg files := by
  induction files with
  | nil => intro i st; rfl
  | cons f rest ih =>
    intro i st
    rw [processFiles_cons_total, processFile_total, ih]
    unfold specTotalChunks
    simp

/-- Every file of the batch gets its own event block, at some loop index,
regardless of what the other files do. -/
theorem processFiles_events_sub (cfg : IngestConfig) (total : Nat)
    (files : List FileEntry) :
    ∀ i st f, f ∈ files →
      ∃ j, ∀ ev ∈ fileEvents cfg total j f, ev ∈ (processFiles cfg total i files st).1 := by
  induction files with
  | nil => intro i st f hf; simp at hf
  | cons g rest ih =>
    intro i st f hf
    rcases List.mem_cons.mp hf with rfl | hf'
    · refine ⟨i, fun ev hev => ?_⟩
      rw [processFiles_cons_events]
      apply List.mem_append_left
      rw [processFile_events]
      exact hev
    · obtain ⟨j, hj⟩ := ih (i + 1) ((processFile cfg total i g st).2.1) f hf'
      refine ⟨j, fun ev hev => ?_⟩
      rw [processFiles_cons_events]
      exact List.mem_append_right _ (hj ev hev)

/-- Under the preconditions, `ingest` runs the per-file loop and returns
normally: the rejected reports, then the per-file events, then the final
summary; the result value is the final store, the chunk total, and `None`. -/
theorem ingest_run (cfg : IngestConfig) (folder : Folder) (st0 : Store)
    (h : ingestPre cfg folder) :
    ingest cfg folder st0 =
      (rejectedEvents folder ++
        ((processFiles cfg (textFilesOf folder).length 1 (textFilesOf folder) st0).1 ++
          [⟨(textFilesOf folder).length, (textFilesOf folder).length, "",
            "Completed! " ++ toString (specTotalChunks cfg (textFilesOf folder)) ++
              " total chunks ingested."⟩]),
       .ok (ingestStoreF cfg folder st0, specTotalChunks cfg (textFilesOf folder), none)) := by
  obtain ⟨h1, h2, h3, h4, h5⟩ := h
  unfold ingest ingestStoreF
  rw [h1, h2, h3, h4, h5]
  rw [processFiles_total_eq]
  simp

/-! ## Claims about ingestion -/

/-- C1, formalised: under the ingest preconditions, both runs return
normally with the same id set written (the write list is a function of the
folder alone, so the second run writes exactly the ids of the first); every
id the loop writes is already present after the first run, so each write of
the second run is an in-place overwrite; the stored id list — hence the
record count — is unchanged by the second run; and distinctness of ids is
preserved (no duplicated records). -/
def C1Statement (cfg : IngestConfig) (folder : Folder) (st0 : Store) : Prop :=
  (ingest cfg folder st0).2
      = .ok (ingestStoreF cfg folder st0, specTotalChunks cfg (textFilesOf folder), none) ∧
  (ingest cfg folder (ingestStoreF cfg folder st0)).2
      = .ok (ingestStoreF cfg folder (ingestStoreF cfg folder st0),
             specTotalChunks cfg (textFilesOf folder), none) ∧
  (∀ id ∈ ingestWrittenIds cfg (textFilesOf folder),
      id ∈ storeKeys (ingestStoreF cfg folder st0)) ∧
  storeKeys (ingestStoreF cfg folder (ingestStoreF cfg folder st0))
      = storeKeys (ingestStoreF cfg folder st0) ∧
  (ingestStoreF cfg folder (ingestStoreF cfg folder st0)).length
      = (ingestStoreF cfg folder st0).length ∧
  ((storeKeys st0).Nodup →
    (storeKeys (ingestStoreF cfg folder (ingestStoreF cfg folder st0))).Nodup)

/-- C1: re-ingesting an unchanged folder into the same collection is
idempotent — the second run writes the same (deterministic) chunk ids, every
such id is overwritten in place under the store's upsert contract, and the
record count satisfies `n1 == n2`, with no duplicated ids. -/
theorem c1_reingest_idempotent (cfg : IngestConfig) (folder : Folder) (st0 : Store)
    (h : ingestPre cfg folder) : C1Statement cfg folder st0 := by
  have hrun1 := ingest_run cfg folder st0 h
  have hrun2 := ingest_run cfg folder (ingestStoreF cfg folder st0) h
  have hsub : ∀ id ∈ ingestWrittenIds cfg (textFilesOf folder),
      id ∈ storeKeys (ingestStoreF cfg folder st0) := by
    intro id hid
    unfold ingestStoreF
    rw [mem_storeKeys_processFiles]
    exact Or.inr hid
  have hkeys : storeKeys (ingestStoreF cfg folder (ingestStoreF cfg folder st0))
      = storeKeys (ingestStoreF cfg folder st0) :=
    storeKeys_processFiles_of_subset cfg (textFilesOf folder).length (textFilesOf folder)
      1 (ingestStoreF cfg folder st0) hsub
  have hlen : ∀ st : Store, (storeKeys st).length = st.length := by
    intro st
    simp [storeKeys]
  refine ⟨?_, ?_, hsub, hkeys, ?_, ?_⟩
  · rw [hrun1]
  · rw [hrun2]
  · rw [← hlen, ← hlen, hkeys]
  · intro h0
    exact nodup_storeKeys_processFiles cfg _ _ 1 _
      (nodup_storeKeys_processFiles cfg _ _ 1 _ h0)

/-- C2, formalised: the two folder checks raise `InvalidInput`; an empty
supported-file list raises `NoSupportedFiles`; otherwise `ingest` returns
normally, the chunk total is reported only through the final progress event,
and the Python return value is `None` (the body has no `return` statement),
not the chunk total. -/
def C2Statement (cfg : IngestConfig) (folder : Folder) (st0 : Store) : Prop :=
  (folder.present = false →
    (ingest cfg folder st0).2
      = .error (.invalidInput ("Folder does not exist: " ++ folder.path))) ∧
  (folder.present = true → folder.isDir = false →
    (ingest cfg folder st0).2
      = .error (.invalidInput ("Path is not a directory: " ++ folder.path))) ∧
  (folder.present = true → folder.isDir = true → (textFilesOf folder).isEmpty = true →
    (ingest cfg folder st0).2
      = .error (.noSupportedFiles
          ("No supported files (.txt, .md) found in " ++ folder.path))) ∧
  (folder.present = true → folder.isDir = true → (textFilesOf folder).isEmpty = false →
    (ingest cfg folder st0).2
      = .ok (ingestStoreF cfg folder st0, specTotalChunks cfg (textFilesOf folder), none) ∧
    (ingest cfg folder st0).1.getLast?
      = some ⟨(textFilesOf folder).length, (textFilesOf folder).length, "",
          "Completed! " ++ toString (specTotalChunks cfg (textFilesOf folder)) ++
            " total chunks ingested."⟩)

/-- C2 amended: `ingest` validates the folder and the supported-file set as
claimed, computes the total chunk count of the successfully processed files
and reports it in the final progress event — but returns `None`, not that
count. -/
theorem c2_contract (cfg : IngestConfig) (folder : Folder) (st0 : Store)
    (h3 : cfg.collectionName.isNone = false) (h4 : cfg.collectionOk = true) :
    C2Statement cfg folder st0 := by
  refine ⟨?_, ?_, ?_, ?_⟩
  · intro h1
    simp [ingest, h1]
  · intro h1 h2
    simp [ingest, h1, h2]
  · intro h1 h2 h5
    simp [ingest, h1, h2, h3, h4, h5]
  · intro h1 h2 h5
    have hrun := ingest_run cfg folder st0 ⟨h1, h2, h3, h4, h5⟩
    constructor
    · rw [hrun]
    · rw [hrun]
      simp [← List.append_assoc, List.getLast?_concat]

/-- C3, formalised: with the preconditions met, `ingest` returns normally
even if files fail after validation; every failing file is reported with an
`ERROR: <message>` status; and every fully successful file of the same batch
still gets its `✓ Done` report and still has all of its chunk ids in the
store — a failing file affects only its own contribution. -/
def C3Statement (cfg : IngestConfig) (folder : Folder) (st0 : Store) : Prop :=
  (ingest cfg folder st0).2
      = .ok (ingestStoreF cfg folder st0, specTotalChunks cfg (textFilesOf folder), none) ∧
  (∀ f ∈ textFilesOf folder, ∀ m, fileFailMsg f = some m →
    ∃ j, Event.mk j (textFilesOf folder).length f.name ("ERROR: " ++ m)
        ∈ (ingest cfg folder st0).1) ∧
  (∀ g ∈ textFilesOf folder, fileOk g = true →
    (∃ j, Event.mk j (textFilesOf folder).length g.name
        ("✓ Done (" ++ toString (fileChunks cfg g).length ++ " chunks)")
        ∈ (ingest cfg folder st0).1) ∧
    ∀ id ∈ fileIds cfg g, id ∈ storeKeys (ingestStoreF cfg folder st0))

/-- C3: per-file failure is isolated — reported with an `ERROR:` status,
never raised out of `ingest`, and the processing and storage of every other
file is unaffected. -/
theorem c3_failure_isolation (cfg : IngestConfig) (folder : Folder) (st0 : Store)
    (h : ingestPre cfg folder) : C3Statement cfg folder st0 := by
  have hrun := ingest_run cfg folder st0 h
  refine ⟨?_, ?_, ?_⟩
  · rw [hrun]
  · intro f hf m hm
    obtain ⟨j, hj⟩ := processFiles_events_sub cfg (textFilesOf folder).length
      (textFilesOf folder) 1 st0 f hf
    refine ⟨j, ?_⟩
    rw [hrun]
    apply List.mem_append_right
    apply List.mem_append_left
    exact hj _ (processFile_error_event cfg (textFilesOf folder).length j f [] m hm)
  · intro g hg hok
    constructor
    · obtain ⟨j, hj⟩ := processFiles_events_sub cfg (textFilesOf folder).length
        (textFilesOf folder) 1 st0 g hg
      refine ⟨j, ?_⟩
      rw [hrun]
      apply List.mem_append_right
      apply List.mem_append_left
      exact hj _ (processFile_done_event cfg (textFilesOf folder).length j g [] hok)
    · intro id hid
      unfold ingestStoreF
      rw [mem_storeKeys_processFiles]
      refine Or.inr ?_
      unfold ingestWrittenIds
      rw [List.mem_flatMap]
      refine ⟨g, hg, ?_⟩
      rw [if_pos hok]
      exact hid

/-- C10, formalised (amended to regular files): every `REJECTED:` report
carries `current = 0`; the rejected reports form a prefix of the whole event
list, before any per-file processing; every regular file failing validation
is reported; and when no supported file exists, the event list consists of
exactly the rejected reports, which are therefore delivered even though
`ingest` then raises `NoSupportedFiles`. -/
def C10Statement (cfg : IngestConfig) (folder : Folder) (st0 : Store) : Prop :=
  (∀ ev ∈ rejectedEvents folder, ev.current = 0) ∧
  (∃ rest, (ingest cfg folder st0).1 = rejectedEvents folder ++ rest) ∧
  (∀ e ∈ folder.entries, e.isFile = true → (validate_file e).1 = false →
    Event.mk 0 (textFilesOf folder).length e.name
      ("REJECTED: " ++ ((validate_file e).2.getD "")) ∈ (ingest cfg folder st0).1) ∧
  ((textFilesOf folder).isEmpty = true →
    (ingest cfg folder st0).1 = rejectedEvents folder)

/-- C10 amended: every rejected regular file (unsupported extension) is
reported with `current = 0` before any file is processed, even when `ingest`
subsequently fails with `NoSupportedFiles`; entries that are not regular
files are skipped silently, not reported. -/
theorem c10_rejected_reports (cfg : IngestConfig) (folder : Folder) (st0 : Store)
    (h1 : folder.present = true) (h2 : folder.isDir = true)
    (h3 : cfg.collectionName.isNone = false) (h4 : cfg.collectionOk = true) :
    C10Statement cfg folder st0 := by
  have hzero : ∀ ev ∈ rejectedEvents folder, ev.current = 0 := by
    intro ev hev
    unfold rejectedEvents at hev
    obtain ⟨f, hf, rfl⟩ := List.mem_map.mp hev
    rfl
  have hevts : ∃ rest, (ingest cfg folder st0).1 = rejectedEvents folder ++ rest := by
    cases h5 : (textFilesOf folder).isEmpty with
    | true =>
      refine ⟨[], ?_⟩
      simp [ingest, h1, h2, h3, h4, h5]
    | false =>
      have hrun := ingest_run cfg folder st0 ⟨h1, h2, h3, h4, h5⟩
      exact ⟨_, by rw [hrun]⟩
  refine ⟨hzero, hevts, ?_, ?_⟩
  · intro e he hef hev
    have he' : e ∈ rejectedOf folder := by
      unfold rejectedOf
      rw [List.mem_filter]
      refine ⟨he, ?_⟩
      simp [hev, hef]
    have hmem : Event.mk 0 (textFilesOf folder).length e.name
        ("REJECTED: " ++ ((validate_file e).2.getD "")) ∈ rejectedEvents folder := by
      unfold rejectedEvents
      exact List.mem_map_of_mem _ he'
    obtain ⟨rest, hrest⟩ := hevts
    rw [hrest]
    exact List.mem_append_left _ hmem
  · intro h5
    simp [ingest, h1, h2, h3, h4, h5]

/-! ## Concrete inputs for witnesses and counterexamples -/

/-- A configuration with a set collection, reachable service and the default
chunking parameters; the embedding function is irrelevant to these claims. -/
def sampleCfg : IngestConfig :=
  { collectionName := some "kb", collectionOk := true, chunkSize := 1000,
    chunkOverlap := 200, embedFn := fun _ => [] }

def sampleOkFile : FileEntry :=
  { relPath := "a.txt", name := "a.txt", suffix := ".txt", isFile := true,
    content := "hi".data, readErr := none, embedErr := none, storeErr := none }

def sampleBadFile : FileEntry :=
  { relPath := "b.md", name := "b.md", suffix := ".md", isFile := true,
    content := "yo".data, readErr := some "boom", embedErr := none, storeErr := none }

def sampleDirEntry : FileEntry :=
  { relPath := "sub", name := "sub", suffix := "", isFile := false,
    content := [], readErr := none, embedErr := none, storeErr := none }

def sampleFolder : Folder :=
  { path := "docs", present := true, isDir := true, entries := [sampleOkFile] }

def sampleMixedFolder : Folder :=
  { path := "docs", present := true, isDir := true,
    entries := [sampleBadFile, sampleOkFile] }

def sampleDirFolder : Folder :=
  { path := "docs", present := true, isDir := true,
    entries := [sampleDirEntry, sampleOkFile] }

/-- Witness for `c1_reingest_idempotent` at a one-file folder. -/
theorem c1_reingest_idempotent_witness : C1Statement sampleCfg sampleFolder [] :=
  c1_reingest_idempotent sampleCfg sampleFolder [] ⟨rfl, rfl, rfl, rfl, by decide⟩

/-- Witness for `c2_contract` at a one-file folder. -/
theorem c2_contract_witness : C2Statement sampleCfg sampleFolder [] :=
  c2_contract sampleCfg sampleFolder [] rfl rfl

/-- C2 fails as stated: on a folder with one supported file of 2 characters,
`ingest` stores 1 chunk and announces it in the final progress event, but
its Python return value is `None`, not the chunk total 1 — the body of
`RAG.ingest` has no `return` statement. -/
theorem c2_counterexample :
    (ingest sampleCfg sampleFolder []).2 =
      .ok ([("a.txt_0",
        { embedding := [], document := "hi".data, filename := "a.txt",
          filepath := "a.txt", chunk_index := 0, total_chunks := 1 })], 1, none) ∧
    (none : Option Nat) ≠ some 1 := by
  exact ⟨rfl, by decide⟩

/-- Witness for `c3_failure_isolation` at a folder with one failing and one
successful file. -/
theorem c3_failure_isolation_witness : C3Statement sampleCfg sampleMixedFolder [] :=
  c3_failure_isolation sampleCfg sampleMixedFolder [] ⟨rfl, rfl, rfl, rfl, by decide⟩

/-- Witness for `c10_rejected_reports` at a folder holding a directory entry
and one supported file. -/
theorem c10_rejected_reports_witness : C10Statement sampleCfg sampleDirFolder [] :=
  c10_rejected_reports sampleCfg sampleDirFolder [] rfl rfl rfl rfl

/-- C10 fails as stated: the entry `sub` is not a regular file, so it fails
validation (`Not a file`), yet no progress event mentions it at all — the
`elif error and file_path.is_file()` filter at src/rag.py line 288 silently
skips entries that are not regular files instead of reporting them. -/
theorem c10_counterexample :
    (validate_file sampleDirEntry).1 = false ∧
    sampleDirEntry ∈ sampleDirFolder.entries ∧
    ∀ ev ∈ (ingest sampleCfg sampleDirFolder []).1, ev.filename ≠ sampleDirEntry.name := by
  refine ⟨by decide, by decide, by decide⟩

/-! ## Retrieval and the agent (src/rag.py `RAG.search`, src/agent.py `Agent.message`) -/

/-- One formatted result of `RAG.search`: id, document text, the metadata
fields the agent reads (`filename`, `chunk_index`), and the cosine
distance. -/
structure QueryHit where
  id : String
  document : List Char
  filename : String
  chunk_index : Nat
  distance : ℚ

/-- The environment of `RAG.search`: the configured collection name, the
injected outcome of each remote call inside the `try` block (collection
access and `count()`, `embed_query`, `collection.query`), and the service's
reply as a function of the query and `n_results` (at most `n_results` hits,
by the service contract). -/
structure RagEnv where
  collectionName : Option String
  collectionOk : Bool
  embedOk : Bool
  queryOk : Bool
  reply : String → Nat → List QueryHit

/-- `RAG.search` (src/rag.py lines 364-413): returns `[]` when no collection
name is set; any exception inside the `try` block (collection access,
embedding, query) is caught by the blanket `except` and also yields `[]`;
otherwise the service reply is formatted and returned.  The function is
total: no exception propagates to the caller. -/
def ragSearch (env : RagEnv) (query : String) (n_results : Nat) : List QueryHit :=
  match env.collectionName with
  | none => []
  | some _ =>
    if env.collectionOk then
      if env.embedOk then
        if env.queryOk then env.reply query n_results
        else []
      else []
    else []

/-- The environment of `Agent.message`: the RAG environment, the two
thresholds, whether a GitHub token is configured (`self.client`), and the
outcome of the generation call (`client.complete`). -/
structure AgentEnv where
  rag : RagEnv
  confidence_threshold : ℚ
  uncertain_distance_threshold : ℚ
  clientOk : Bool
  genResult : Except String String

/-- The retrieval results `Agent.message` works with: the `rag.search` hits
when a collection is configured (`if self.rag and self.collection_name:`),
otherwise none. -/
def agentResults (env : AgentEnv) (user_input : String) : List QueryHit :=
  if env.rag.collectionName.isSome then ragSearch env.rag user_input 5 else []

/-- The `min_distance` loop of `Agent.message` (src/agent.py lines 67-85):
initialised to `1.0` and lowered whenever a result's distance is smaller. -/
def agentMinDistance (hits : List QueryHit) : ℚ :=
  hits.foldl (fun m h => if h.distance < m then h.distance else m) 1

/-- `confidence` (src/agent.py lines 119-120): `0.0` unless results were
retrieved, in which case `max(0.0, 1.0 - min_distance)`. -/
def agentConfidence (env : AgentEnv) (user_input : String) : ℚ :=
  if (agentResults env user_input).isEmpty then 0
  else max 0 (1 - agentMinDistance (agentResults env user_input))

/-- The document preview of a reference (src/agent.py line 88). -/
def docPreview (document : List Char) : String :=
  if document.length > 100 then String.mk (document.take 100) ++ "..."
  else String.mk document

/-- The response text (src/agent.py lines 127-159): a configuration error
without a client; the generated text on success; a visible
`Error generating response: <e>` string when generation raises. -/
def agentResponse (env : AgentEnv) : String :=
  if !env.clientOk then
    "Error: GITHUB_TOKEN not configured. Please set your GitHub token in .env file."
  else
    match env.genResult with
    | .ok t => t
    | .error e => "Error generating response: " ++ e

/-- The dictionary `Agent.message` returns (src/agent.py lines 182-188). -/
structure AgentAnswer where
  response : String
  references : List (String × String × String × String)
  confidence : ℚ
  is_uncertain : Bool
  escalated : Bool

/-- `Agent.message` (src/agent.py lines 48-188): retrieval, assessment
(`is_uncertain = min_distance > uncertain_distance_threshold`,
`escalated = confidence < confidence_threshold`), then generation. -/
def agentMessage (env : AgentEnv) (user_input : String) : AgentAnswer :=
  { response := agentResponse env,
    references := (agentResults env user_input).map (fun h =>
      (h.filename ++ " (chunk " ++ toString (h.chunk_index + 1) ++ ")", h.id,
        h.filename, docPreview h.document)),
    confidence := agentConfidence env user_input,
    is_uncertain :=
      decide (agentMinDistance (agentResults env user_input)
        > env.uncertain_distance_threshold),
    escalated := decide (agentConfidence env user_input < env.confidence_threshold) }

/-- The distances of the retrieved matches. -/
def agentDistances (env : AgentEnv) (user_input : String) : List ℚ :=
  (agentResults env user_input).map (fun h => h.distance)

/-- The minimum distance exactly as the claim defines it: the minimum of the
retrieved distances, or `1.0` when there are none. -/
def specMinDistance : List ℚ → ℚ
  | [] => 1
  | d :: ds => ds.foldl min d

/-- The imperative minimum loop equals a fold of `min` from the initial
value `1`. -/
theorem agentMinDistance_eq_foldl_min (hits : List QueryHit) :
    agentMinDistance hits = (hits.map (fun h => h.distance)).foldl min 1 := by
  unfold agentMinDistance
  suffices H : ∀ (l : List QueryHit) (init : ℚ),
      l.foldl (fun m h => if h.distance < m then h.distance else m) init
        = (l.map (fun h => h.distance)).foldl min init from H hits 1
  intro l
  induction l with
  | nil => intro init; rfl
  | cons h t ih =>
    intro init
    simp only [List.foldl_cons, List.map_cons]
    rw [ih]
    congr 1
    by_cases hd : h.distance < init
    · have hle : ¬ (init ≤ h.distance) := not_le.mpr hd
      simp [min_def, hd, hle]
    · have hle : init ≤ h.distance := not_lt.mp hd
      simp [min_def, hd, hle]

/-- C4 fails as stated: with a single retrieved match at distance `2` (the
top of the cosine range) and `uncertain_distance_threshold = 1`, the claim's
`min_distance = min(d_i) = 2` makes `is_uncertain` true, but the code's
`min_distance` variable starts at `1.0` and is only ever lowered, so it
stays `1.0` and the agent reports `is_uncertain = false`. -/
def c4RagEnv : RagEnv :=
  { collectionName := some "kb", collectionOk := true, embedOk := true,
    queryOk := true,
    reply := fun _ _ => [⟨"d.md_0", "x".data, "d.md", 0, 2⟩] }

def c4AgentEnv : AgentEnv :=
  { rag := c4RagEnv, confidence_threshold := 0,
    uncertain_distance_threshold := 1, clientOk := true,
    genResult := .ok "answer" }

theorem c4_counterexample :
    specMinDistance (agentDistances c4AgentEnv "q") = 2 ∧
    ((2 : ℚ) > 1) ∧
    (agentMessage c4AgentEnv "q").is_uncertain = false := by
  refine ⟨by decide, by decide, by decide⟩

/-- C4 amended: the code's effective minimum distance is
`min(1.0, min(d_i))` — the initial value `1.0` takes part in the minimum —
and with that minimum all four formulas hold: `confidence =
max(0, 1 - min_distance)` (unconditionally, since an empty result list gives
`max(0, 1-1) = 0`), `is_uncertain = (min_distance >
uncertain_distance_threshold)` and `escalated = (confidence <
confidence_threshold)`; in particular with no matches the minimum is `1.0`
and the confidence `0`. -/
theorem c4_amended (env : AgentEnv) (q : String) :
    (agentMessage env q).confidence
        = max 0 (1 - (agentDistances env q).foldl min 1) ∧
    (agentMessage env q).is_uncertain
        = decide ((agentDistances env q).foldl min 1
            > env.uncertain_distance_threshold) ∧
    (agentMessage env q).escalated
        = decide ((agentMessage env q).confidence < env.confidence_threshold) ∧
    (agentDistances env q = [] →
      (agentMessage env q).confidence = 0 ∧
      (agentMessage env q).is_uncertain
        = decide ((1 : ℚ) > env.uncertain_distance_threshold)) := by
  have hconf : agentConfidence env q = max 0 (1 - (agentDistances env q).foldl min 1) := by
    unfold agentConfidence agentDistances
    cases hre : agentResults env q with
    | nil => simp
    | cons a t =>
      rw [← hre, agentMinDistance_eq_foldl_min]
      rw [hre]
      simp
  have hmin : agentMinDistance (agentResults env q) = (agentDistances env q).foldl min 1 := by
    rw [agentMinDistance_eq_foldl_min]
    rfl
  refine ⟨hconf, ?_, rfl, ?_⟩
  · show decide (agentMinDistance (agentResults env q) > env.uncertain_distance_threshold) = _
    rw [hmin]
  · intro hempty
    constructor
    · show agentConfidence env q = 0
      rw [hconf, hempty]
      simp
    · show decide (agentMinDistance (agentResults env q) > env.uncertain_distance_threshold) = _
      rw [hmin, hempty]
      rfl

/-- C5: `RAG.search` returns the empty list — rather than raising — when no
collection is configured or any backing call (collection access, embedding,
query) fails; the embedding `ragSearch` is a total function, mirroring the
blanket `except` that keeps any exception from propagating. -/
theorem c5_search_degrades (env : RagEnv) (q : String) (k : Nat)
    (h : env.collectionName = none ∨ env.collectionOk = false ∨
      env.embedOk = false ∨ env.queryOk = false) :
    ragSearch env q k = [] := by
  unfold ragSearch
  cases hc : env.collectionName with
  | none => rfl
  | some s =>
    rcases h with h | h | h | h
    · rw [h] at hc
      cases hc
    · simp [h]
    · simp [h]
    · simp [h]

def c5NoCollectionEnv : RagEnv :=
  { collectionName := none, collectionOk := true, embedOk := true,
    queryOk := true, reply := fun _ _ => [] }

/-- Witness for `c5_search_degrades`: no collection configured. -/
theorem c5_search_degrades_witness : ragSearch c5NoCollectionEnv "how do I start" 5 = [] :=
  c5_search_degrades c5NoCollectionEnv "how do I start" 5 (Or.inl rfl)

/-- C6: when the generation call fails, `Agent.message` does not propagate
the exception — the response text is the visible string
`Error generating response: <e>` — while `confidence`, `is_uncertain` and
`escalated` are exactly the values computed from retrieval, identical to
those of the same environment whose generation call succeeds. -/
theorem c6_generation_failure (rag : RagEnv) (cth uth : ℚ) (e t : String) (q : String) :
    (agentMessage ⟨rag, cth, uth, true, .error e⟩ q).response
        = "Error generating response: " ++ e ∧
    (agentMessage ⟨rag, cth, uth, true, .error e⟩ q).confidence
        = (agentMessage ⟨rag, cth, uth, true, .ok t⟩ q).confidence ∧
    (agentMessage ⟨rag, cth, uth, true, .error e⟩ q).is_uncertain
        = (agentMessage ⟨rag, cth, uth, true, .ok t⟩ q).is_uncertain ∧
    (agentMessage ⟨rag, cth, uth, true, .error e⟩ q).escalated
        = (agentMessage ⟨rag, cth, uth, true, .ok t⟩ q).escalated :=
  ⟨rfl, rfl, rfl, rfl⟩
